import Mathlib

/-!
Verification development for the psiagram `Paper` coordinator
(`src/packages/psiagram/src/components/Paper/Paper.base.ts`), its event
pipeline (`PaperEvent`) and listener registry.

Registries (`_nodes`, `_edges`, `_listeners`) are JavaScript objects with
string keys and insertion-order enumeration; they are embedded as
association lists with insertion at the tail.  Coordinates are embedded as
integers.  Rendering-only effects (SVG attributes, path redraws) are
reflected only where a claim observes them: the node handle's translate
position is stored, edge path rendering is not.
-/

set_option maxHeartbeats 1000000

namespace Workflow

/-- Lookup of the first binding of key `k` (JS property access `obj[k]`). -/
def alLookup {α : Type} : List (String × α) → String → Option α
  | [], _ => none
  | (k', v) :: rest, k => if k' = k then some v else alLookup rest k

/-- `obj.hasOwnProperty(k)` on an object embedded as an association list. -/
def hasKey {α : Type} (l : List (String × α)) (k : String) : Bool :=
  (alLookup l k).isSome

/-- Assignment `obj[k] = v` to an existing key: replaces the first binding. -/
def alSet {α : Type} : List (String × α) → String → α → List (String × α)
  | [], _, _ => []
  | (k', v') :: rest, k, v =>
    if k' = k then (k', v) :: rest else (k', v') :: alSet rest k v

/-- `delete obj[k]`: removes the first binding of `k`. -/
def alErase {α : Type} : List (String × α) → String → List (String × α)
  | [], _ => []
  | (k', v') :: rest, k =>
    if k' = k then rest else (k', v') :: alErase rest k

theorem alLookup_append_of_none {α : Type} {l : List (String × α)} {k : String}
    (h : alLookup l k = none) (v : α) :
    alLookup (l ++ [(k, v)]) k = some v := by
  induction l with
  | nil => simp [alLookup]
  | cons hd tl ih =>
    simp only [alLookup, List.cons_append] at h ⊢
    split at h
    · exact absurd h (by simp)
    · simp only [*, if_neg]
      exact ih h

theorem alLookup_append_ne {α : Type} (l : List (String × α)) (k k' : String)
    (v : α) (h : k' ≠ k) :
    alLookup (l ++ [(k', v)]) k = alLookup l k := by
  induction l with
  | nil => simp [alLookup, h]
  | cons hd tl ih =>
    simp only [alLookup, List.cons_append]
    split <;> simp [ih]

theorem alLookup_alSet_self {α : Type} {l : List (String × α)} {k : String}
    (h : (alLookup l k).isSome) (v : α) :
    alLookup (alSet l k v) k = some v := by
  induction l with
  | nil => simp [alLookup] at h
  | cons hd tl ih =>
    by_cases hk : hd.1 = k
    · simp [alSet, alLookup, hk]
    · simp only [alLookup, alSet, if_neg hk] at h ⊢
      exact ih h

theorem alLookup_alSet_ne {α : Type} (l : List (String × α)) (k k' : String)
    (v : α) (h : k' ≠ k) :
    alLookup (alSet l k' v) k = alLookup l k := by
  induction l with
  | nil => simp [alSet, alLookup]
  | cons hd tl ih =>
    by_cases hk : hd.1 = k'
    · simp [alSet, alLookup, hk, h]
    · by_cases hk2 : hd.1 = k <;>
        simp [alSet, alLookup, hk, hk2, ih, Ne.symm h]

theorem alLookup_alErase_ne {α : Type} (l : List (String × α)) (k k' : String)
    (h : k' ≠ k) :
    alLookup (alErase l k') k = alLookup l k := by
  induction l with
  | nil => simp [alErase]
  | cons hd tl ih =>
    by_cases hk : hd.1 = k'
    · simp [alErase, alLookup, hk, h]
    · by_cases hk2 : hd.1 = k <;>
        simp [alErase, alLookup, hk, hk2, ih, Ne.symm h]

theorem alErase_map_fst {α : Type} (l : List (String × α)) (k : String) :
    (alErase l k).map Prod.fst = (l.map Prod.fst).erase k := by
  induction l with
  | nil => simp [alErase]
  | cons hd tl ih =>
    by_cases hk : hd.1 = k
    · simp [alErase, hk, List.erase_cons]
    · simp [alErase, hk, List.erase_cons, ih]

theorem hasKey_iff_mem {α : Type} (l : List (String × α)) (k : String) :
    hasKey l k = true ↔ k ∈ l.map Prod.fst := by
  induction l with
  | nil => simp [hasKey, alLookup]
  | cons hd tl ih =>
    by_cases hk : hd.1 = k
    · simp [hasKey, alLookup, hk]
    · simpa [hasKey, alLookup, hk, Ne.symm hk] using ih

/-- Modelled from the spec: `roundToNearest(value, unit, minimum=unit)` of the
Geometry Engine (its implementation file is not in the sources, only its
callers are): snaps `value` to the nearest multiple of `unit`, floored at
`minimum`; `unit = 0` returns `value` unchanged. -/
def roundToNearest (value unit minimum : Int) : Int :=
  if unit = 0 then value
  else max minimum (unit * ((2 * value + unit) / (2 * unit)))

/-- A coordinate pair `{x, y}` (`ICoordinates`). -/
structure Coord where
  x : Int
  y : Int
  deriving DecidableEq, Repr

/-- Modelled from the spec: `areCoordsEqual(a, b)` of the Geometry Engine
(implementation not in the sources): exact component-wise equality. -/
def areCoordsEqual (a b : Coord) : Bool :=
  a.x == b.x && a.y == b.y

/-- `edgeEndPoint = { id: string } | ICoordinates`: a node reference or a
literal point. -/
inductive EndPt where
  | ref (id : String)
  | pt (c : Coord)
  deriving DecidableEq, Repr

/-- `IPaperStoredNode`, with the handle reduced to what the claims observe:
whether `instance.getNodeElement()` returns a usable element, and the
position the element's `translate` transform was last set to. -/
structure StoredNode where
  coords : Coord
  hasElement : Bool
  handlePos : Option Coord
  deriving DecidableEq, Repr

/-- `IPaperStoredEdge` (the handle's rendered path is not observed by any
claim; edges are only stored after their element was checked). -/
structure StoredEdge where
  source : EndPt
  target : EndPt
  coords : List Coord
  deriving DecidableEq, Repr

/-- `IPaperInputNode`, with the component factory reduced to whether the
constructed instance yields a renderable element. -/
structure InputNode where
  id : String
  coords : Coord
  hasElement : Bool
  deriving DecidableEq, Repr

/-- `IPaperInputEdge`. -/
structure InputEdge where
  id : String
  source : EndPt
  target : EndPt
  coords : List Coord
  hasElement : Bool
  deriving DecidableEq, Repr

/-- The `PaperError` codes raised by `Paper.base.ts`. -/
inductive PError where
  | dupId
  | noId
  | invalidElem
  deriving DecidableEq, Repr

/-- The coordinator state owned by `Paper`: grid size, node and edge
registries, and the active-item slot (`IActiveItem` is a string-keyed
record, embedded as an association list). -/
structure PaperSt where
  gridSize : Int
  nodes : List (String × StoredNode)
  edges : List (String × StoredEdge)
  activeItem : Option (List (String × String))
  deriving DecidableEq, Repr

/-- A fresh paper with no initial conditions. -/
def emptyPaper (gridSize : Int) : PaperSt :=
  { gridSize := gridSize, nodes := [], edges := [], activeItem := none }

/-- Result of one public operation run with no listeners registered:
the state after the call (including partial changes left behind by a
thrown `PaperError`), the error if one was thrown, and the types of the
events fired (in `_fireEvent` call order). -/
structure OpRes where
  st : PaperSt
  err : Option PError
  fired : List String
  deriving DecidableEq, Repr

/-- Does this edge use node `id` as an endpoint
(`edge.source.hasOwnProperty('id') && edge.source.id === id`, or the same
for the target)?  Used by `removeNode`'s cascade and `_setNodeCoords`. -/
def refersTo (e : StoredEdge) (id : String) : Bool :=
  (match e.source with | .ref i => i == id | .pt _ => false) ||
  (match e.target with | .ref i => i == id | .pt _ => false)

/-- Endpoint validation in `addEdge`: a node reference must name an existing
node, a literal point (`hasOwnProperty('x')`) is always valid. -/
def validEndPt (p : PaperSt) : EndPt → Bool
  | .ref i => hasKey p.nodes i
  | .pt _ => true

/-- Can `_updateEdgeRoute` resolve this endpoint to a point
(`sourcePoint || sourceNode`)?  A literal point always resolves; a node
reference resolves when the node is present. -/
def resolvable (p : PaperSt) : EndPt → Bool
  | .ref i => hasKey p.nodes i
  | .pt _ => true

/-- `Paper._updateEdgeRoute(id)` under no listeners.  It fails `E_NO_ID` if
the edge is unknown or an endpoint does not resolve; otherwise it fires
`move-edge`, whose default action only redraws the edge handle's path (not
reflected in the registries).  It never changes the coordinator state. -/
def updateEdgeRoute (p : PaperSt) (id : String) : Option PError × List String :=
  match alLookup p.edges id with
  | none => (some .noId, [])
  | some e =>
    if resolvable p e.source && resolvable p e.target then (none, ["move-edge"])
    else (some .noId, [])

/-- `Paper.addNode(node)` under no listeners.  Fails `E_DUP_ID` before the
event on a duplicate id.  Otherwise fires `add-node`; the default action
stores the node (raw coordinates) and then either places the element at the
grid-rounded position or throws `E_INV_ELEM` with the node already stored. -/
def addNode (p : PaperSt) (n : InputNode) : OpRes :=
  if hasKey p.nodes n.id then ⟨p, some .dupId, []⟩
  else
    let roundedX := roundToNearest n.coords.x p.gridSize p.gridSize
    let roundedY := roundToNearest n.coords.y p.gridSize p.gridSize
    if n.hasElement then
      ⟨{ p with nodes :=
          p.nodes ++ [(n.id, ⟨n.coords, true, some ⟨roundedX, roundedY⟩⟩)] },
        none, ["add-node"]⟩
    else
      ⟨{ p with nodes := p.nodes ++ [(n.id, ⟨n.coords, false, none⟩)] },
        some .invalidElem, ["add-node"]⟩

/-- `Paper.removeEdge(id)` under no listeners: `E_NO_ID` before the event if
absent, otherwise fires `remove-edge` and the default action deletes the
edge. -/
def removeEdge (p : PaperSt) (id : String) : OpRes :=
  if hasKey p.edges id then
    ⟨{ p with edges := alErase p.edges id }, none, ["remove-edge"]⟩
  else ⟨p, some .noId, []⟩

/-- One step of `removeNode`'s cascade over the snapshot of edge keys: look
the key up in the current registry and, when the edge refers to the removed
node, delete it through the public `removeEdge`. -/
def cascadeStep (id : String) (acc : PaperSt × List String) (eid : String) :
    PaperSt × List String :=
  match alLookup acc.1.edges eid with
  | none => acc
  | some e =>
    if refersTo e id then
      let r := removeEdge acc.1 eid
      (r.st, acc.2 ++ r.fired)
    else acc

/-- `Paper.removeNode(id)` under no listeners.  `E_NO_ID` before the event if
absent.  Otherwise fires `remove-node`; the default action walks
`Object.keys(this._edges)` (a snapshot), removes every edge referring to the
node via `removeEdge`, then detaches the node's element and deletes the
node.  (`getNodeElement().remove()` requires a usable element.) -/
def removeNode (p : PaperSt) (id : String) : OpRes :=
  if hasKey p.nodes id then
    let c := (p.edges.map Prod.fst).foldl (cascadeStep id) (p, [])
    if (alLookup c.1.nodes id).elim false (fun sn => sn.hasElement) then
      ⟨{ c.1 with nodes := alErase c.1.nodes id }, none,
        "remove-node" :: c.2⟩
    else ⟨c.1, some .invalidElem, "remove-node" :: c.2⟩
  else ⟨p, some .noId, []⟩

/-- `Paper.addEdge(edge)` under no listeners.  `E_DUP_ID` before the event on
a duplicate id; `E_INV_ELEM` before the event if the element or either
endpoint is invalid.  Otherwise fires `add-edge`; the default action stores
the edge verbatim and triggers `_updateEdgeRoute` (which fires `move-edge`). -/
def addEdge (p : PaperSt) (e : InputEdge) : OpRes :=
  if hasKey p.edges e.id then ⟨p, some .dupId, []⟩
  else
    if e.hasElement && validEndPt p e.source && validEndPt p e.target then
      let p' := { p with edges := p.edges ++ [(e.id, ⟨e.source, e.target, e.coords⟩)] }
      let r := updateEdgeRoute p' e.id
      ⟨p', r.1, "add-edge" :: r.2⟩
    else ⟨p, some .invalidElem, []⟩

/-- `Paper._setNodeCoords(id, newCoords)` under no listeners.  `E_NO_ID` if
the node is absent.  A no-op (no event) when the new coordinates are exactly
equal to the stored ones.  Otherwise fires `move-node`; the default action
stores the raw new coordinates, moves the element's transform to them, and
re-routes every edge referring to the node (an `E_NO_ID` from a re-route
aborts the remaining iterations). -/
def setNodeCoords (p : PaperSt) (id : String) (newCoords : Coord) : OpRes :=
  match alLookup p.nodes id with
  | none => ⟨p, some .noId, []⟩
  | some node =>
    if areCoordsEqual node.coords newCoords then ⟨p, none, []⟩
    else
      let newNode := { node with coords := newCoords, handlePos := some newCoords }
      let p' := { p with nodes := alSet p.nodes id newNode }
      let step := fun (acc : Option PError × List String) (eid : String) =>
        if acc.1.isSome then acc
        else
          match alLookup p'.edges eid with
          | none => acc
          | some e =>
            if refersTo e id then
              let r := updateEdgeRoute p' eid
              (r.1, acc.2 ++ r.2)
            else acc
      let c := (p'.edges.map Prod.fst).foldl step (none, [])
      ⟨p', c.1, "move-node" :: c.2⟩

/-- `Paper._setEdgeSource(id, newSource)` under no listeners: `E_NO_ID` if
the edge is absent; otherwise the new source is stored first and
`_updateEdgeRoute` runs afterwards (so a route failure is raised after the
mutation). -/
def setEdgeSource (p : PaperSt) (id : String) (newSource : EndPt) : OpRes :=
  match alLookup p.edges id with
  | none => ⟨p, some .noId, []⟩
  | some e =>
    let p' := { p with edges := alSet p.edges id { e with source := newSource } }
    let r := updateEdgeRoute p' id
    ⟨p', r.1, r.2⟩

/-- `Paper._setEdgeTarget(id, newTarget)` under no listeners. -/
def setEdgeTarget (p : PaperSt) (id : String) (newTarget : EndPt) : OpRes :=
  match alLookup p.edges id with
  | none => ⟨p, some .noId, []⟩
  | some e =>
    let p' := { p with edges := alSet p.edges id { e with target := newTarget } }
    let r := updateEdgeRoute p' id
    ⟨p', r.1, r.2⟩

/-- `Paper._setEdgeCoords(id, newCoords)` (waypoints) under no listeners. -/
def setEdgeCoords (p : PaperSt) (id : String) (newCoords : List Coord) : OpRes :=
  match alLookup p.edges id with
  | none => ⟨p, some .noId, []⟩
  | some e =>
    let p' := { p with edges := alSet p.edges id { e with coords := newCoords } }
    let r := updateEdgeRoute p' id
    ⟨p', r.1, r.2⟩

/-- The key-wise comparison in `updateActiveItem`:
`Object.keys(activeItem).every(key => oldActiveItem[key] === activeItem[key])`. -/
def keysMatch (newItem oldItem : List (String × String)) : Bool :=
  (newItem.map Prod.fst).all
    (fun k => alLookup oldItem k == alLookup newItem k)

/-- `Paper.updateActiveItem(activeItem?)` under no listeners.  A no-op when a
current active item exists and every key of the given item matches it, or
when both are absent; otherwise fires `update-active-item` and the default
action replaces or clears the slot. -/
def updateActiveItem (p : PaperSt) (item : Option (List (String × String))) :
    OpRes :=
  let old := p.activeItem
  if (match old, item with
      | some o, some it => keysMatch it o
      | _, _ => false) then ⟨p, none, []⟩
  else if old.isNone && item.isNone then ⟨p, none, []⟩
  else ⟨{ p with activeItem := item }, none, ["update-active-item"]⟩

/-!
Event pipeline with listeners.  A listener is identified by a numeric id
(standing for its JS function reference) and its behaviour is the script
`env id`, a finite list of primitive actions on the event under delivery
and on the listener registry.  Scripts cover exactly the interactions the
claims about the pipeline quantify over: `stopPropagation`,
`preventDefault`, an early `defaultAction` call, and adding/removing
listeners mid-firing.
-/

/-- A primitive action a listener can take during a firing. -/
inductive Cmd where
  | stopPropagation
  | preventDefault
  | defaultAction
  | addL (etype : String) (lid : Nat)
  | removeL (etype : String) (lid : Nat)
  | nop
  deriving DecidableEq, Repr

/-- One entry of the execution trace of a firing: a listener being invoked,
or a primitive action being executed (the final `evt.defaultAction()` call
of `_fireEvent` is recorded as a `.cmd .defaultAction` entry too). -/
inductive TraceEntry where
  | invoke (lid : Nat)
  | cmd (c : Cmd)
  deriving DecidableEq, Repr

/-- The per-type listener registry `_listeners` (ordered, listeners named by
id). -/
abbrev Regs := List (String × List Nat)

/-- `Paper.addListener(type, listener)`: create the per-type array on first
use, push only if the listener is not already present. -/
def addListenerReg (regs : Regs) (etype : String) (lid : Nat) : Regs :=
  match alLookup regs etype with
  | none => regs ++ [(etype, [lid])]
  | some cur => if lid ∈ cur then regs else alSet regs etype (cur ++ [lid])

/-- `Paper.removeListener(type, listener)`: when the per-type array exists
and is non-empty, `splice(findIndex(...), 1)` — which removes the found
entry, or the *last* entry when `findIndex` returns `-1`. -/
def removeListenerReg (regs : Regs) (etype : String) (lid : Nat) : Regs :=
  match alLookup regs etype with
  | none => regs
  | some cur =>
    if cur.isEmpty then regs
    else
      match cur.findIdx? (· == lid) with
      | some i => alSet regs etype (cur.eraseIdx i)
      | none => alSet regs etype cur.dropLast

/-- The listener array for an event type (empty when absent). -/
def listenersOf (regs : Regs) (etype : String) : List Nat :=
  (alLookup regs etype).getD []

/-- The mutable state of one firing: the listener registry, the event's
propagation flag, whether its default-action closure is still stored
(`pending`), whether the closure has run (`applied`), the error the closure
threw when it ran (propagating out of the firing), and the execution
trace. -/
structure FireSt where
  regs : Regs
  canProp : Bool
  pending : Bool
  applied : Bool
  err : Option PError
  trace : List TraceEntry
  deriving DecidableEq, Repr

/-- Execute one primitive listener action.  `closureErr` is the error the
event's default-action closure throws if and when it runs. -/
def runCmd (closureErr : Option PError) (s : FireSt) (c : Cmd) : FireSt :=
  match c with
  | .stopPropagation =>
    { s with canProp := false, trace := s.trace ++ [.cmd c] }
  | .preventDefault =>
    { s with pending := false, trace := s.trace ++ [.cmd c] }
  | .defaultAction =>
    if s.pending then
      { s with
          pending := false
          applied := true
          err := closureErr
          trace := s.trace ++ [.cmd c] }
    else { s with trace := s.trace ++ [.cmd c] }
  | .addL t lid =>
    { s with regs := addListenerReg s.regs t lid, trace := s.trace ++ [.cmd c] }
  | .removeL t lid =>
    { s with regs := removeListenerReg s.regs t lid, trace := s.trace ++ [.cmd c] }
  | .nop => { s with trace := s.trace ++ [.cmd c] }

/-- Run a listener's script; an error thrown by an early default action
propagates, aborting the rest of the script. -/
def runScript (closureErr : Option PError) (s : FireSt) : List Cmd → FireSt
  | [] => s
  | c :: cs =>
    let s' := runCmd closureErr s c
    if s'.err.isSome then s' else runScript closureErr s' cs

/-- The body of `_fireEvent`'s `forEach` loop: visit indices `k`,
`k + 1`, ... of the *live* listener array (`steps` indices remain; the
`forEach` bound was taken from the array's length at the start).  An index
beyond the current length is skipped; a listener at a visited index is
invoked only `if (evt.canPropagate)`; an error aborts the loop. -/
def fireLoop (closureErr : Option PError) (env : Nat → List Cmd)
    (etype : String) : Nat → Nat → FireSt → FireSt
  | _, 0, s => s
  | k, steps + 1, s =>
    if s.err.isSome then s
    else
      let cur := listenersOf s.regs etype
      if h : k < cur.length then
        if s.canProp then
          let lid := cur.get ⟨k, h⟩
          let s' := runScript closureErr
            { s with trace := s.trace ++ [.invoke lid] } (env lid)
          fireLoop closureErr env etype (k + 1) steps s'
        else fireLoop closureErr env etype (k + 1) steps s
      else fireLoop closureErr env etype (k + 1) steps s

/-- `Paper._fireEvent(evt)`: loop over the listener array for the event's
type (bound fixed to its length at the start, elements read live), then
call `evt.defaultAction()` — unless an error is already propagating. -/
def fireEvent (closureErr : Option PError) (env : Nat → List Cmd)
    (regs : Regs) (etype : String) : FireSt :=
  let init : FireSt :=
    { regs := regs, canProp := true, pending := true, applied := false,
      err := none, trace := [] }
  let s := fireLoop closureErr env etype 0 (listenersOf regs etype).length init
  if s.err.isSome then s else runCmd closureErr s .defaultAction

/-- The firing algorithm as the spec words it ("snapshot the listener list
for the event's type, invoke each listener in registration order while the
propagation flag remains true, then invoke the default action"): the
iteration sequence is the snapshot taken at the start, unaffected by
mid-firing registry changes. -/
def specSnapshotFire (closureErr : Option PError) (env : Nat → List Cmd)
    (regs : Regs) (etype : String) : FireSt :=
  let init : FireSt :=
    { regs := regs, canProp := true, pending := true, applied := false,
      err := none, trace := [] }
  let s := (listenersOf regs etype).foldl
    (fun s lid =>
      if s.err.isSome then s
      else if s.canProp then
        runScript closureErr { s with trace := s.trace ++ [.invoke lid] } (env lid)
      else s) init
  if s.err.isSome then s else runCmd closureErr s .defaultAction

/-- Result of a public operation run with listeners: coordinator state,
listener registry, error, and the firing's trace. -/
structure LRes where
  st : PaperSt
  regs : Regs
  err : Option PError
  trace : List TraceEntry
  deriving DecidableEq, Repr

/-- `Paper.addNode` with listeners.  The deferred default action stores the
node and errors `E_INV_ELEM` on a missing element; since listener scripts
only touch the event and the listener registry, its effect on the
registries is applied when (and only when) the closure ran. -/
def addNodeL (env : Nat → List Cmd) (p : PaperSt) (regs : Regs)
    (n : InputNode) : LRes :=
  if hasKey p.nodes n.id then ⟨p, regs, some .dupId, []⟩
  else
    let roundedX := roundToNearest n.coords.x p.gridSize p.gridSize
    let roundedY := roundToNearest n.coords.y p.gridSize p.gridSize
    let closureErr : Option PError := if n.hasElement then none else some .invalidElem
    let f := fireEvent closureErr env regs "add-node"
    let st :=
      if f.applied then
        if n.hasElement then
          { p with nodes :=
              p.nodes ++ [(n.id, ⟨n.coords, true, some ⟨roundedX, roundedY⟩⟩)] }
        else { p with nodes := p.nodes ++ [(n.id, ⟨n.coords, false, none⟩)] }
      else p
    ⟨st, f.regs, f.err, f.trace⟩

/-- `Paper.removeEdge` with listeners: the deferred default action deletes
the stored edge (stored edges always have a usable element). -/
def removeEdgeL (env : Nat → List Cmd) (p : PaperSt) (regs : Regs)
    (id : String) : LRes :=
  if hasKey p.edges id then
    let f := fireEvent none env regs "remove-edge"
    ⟨if f.applied then { p with edges := alErase p.edges id } else p,
      f.regs, f.err, f.trace⟩
  else ⟨p, regs, some .noId, []⟩

/-- `Paper.updateActiveItem` with listeners: the deferred default action
replaces or clears the active-item slot. -/
def updateActiveItemL (env : Nat → List Cmd) (p : PaperSt) (regs : Regs)
    (item : Option (List (String × String))) : LRes :=
  let old := p.activeItem
  if (match old, item with
      | some o, some it => keysMatch it o
      | _, _ => false) then ⟨p, regs, none, []⟩
  else if old.isNone && item.isNone then ⟨p, regs, none, []⟩
  else
    let f := fireEvent none env regs "update-active-item"
    ⟨if f.applied then { p with activeItem := item } else p,
      f.regs, f.err, f.trace⟩

/-!
Invariants of a firing, phrased against the execution trace.
-/

/-- How one trace entry changes the pair (closure still stored, closure has
run): `preventDefault` clears the closure, `defaultAction` runs-and-clears
it when it is stored, everything else leaves the pair alone. -/
def evtStepPA : Bool × Bool → TraceEntry → Bool × Bool
  | pa, .cmd .preventDefault => (false, pa.2)
  | pa, .cmd .defaultAction => if pa.1 then (false, true) else pa
  | pa, _ => pa

/-- The (pending, applied) pair determined by a trace, from the initial
state where the closure is stored and has not run. -/
def evtFoldPA (t : List TraceEntry) : Bool × Bool :=
  t.foldl evtStepPA (true, false)

/-- No listener invocation occurs after a `stopPropagation` in the trace. -/
def NoInvokeAfterStop : List TraceEntry → Prop
  | [] => True
  | e :: rest =>
    (e = .cmd .stopPropagation → ∀ lid, TraceEntry.invoke lid ∉ rest) ∧
      NoInvokeAfterStop rest

theorem evtFoldPA_snoc (t : List TraceEntry) (e : TraceEntry) :
    evtFoldPA (t ++ [e]) = evtStepPA (evtFoldPA t) e := by
  simp [evtFoldPA, List.foldl_append]

theorem noInvokeAfterStop_snoc {t : List TraceEntry} {e : TraceEntry}
    (h : NoInvokeAfterStop t)
    (he : (∃ lid, e = TraceEntry.invoke lid) →
      TraceEntry.cmd Cmd.stopPropagation ∉ t) :
    NoInvokeAfterStop (t ++ [e]) := by
  induction t with
  | nil =>
    exact ⟨fun hstop lid hmem => absurd hmem (List.not_mem_nil _), trivial⟩
  | cons hd tl ih =>
    obtain ⟨h1, h2⟩ := h
    refine ⟨fun hstop lid hmem => ?_, ih h2 (fun hx => ?_)⟩
    · rcases List.mem_append.mp hmem with hmem | hmem
      · exact h1 hstop lid hmem
      · rcases List.mem_singleton.mp hmem with rfl
        have := he ⟨lid, rfl⟩
        exact this (by simp [hstop])
    · have := he hx
      intro hmem
      exact this (List.mem_cons_of_mem _ hmem)

theorem noInvokeAfterStop_split {t t₁ t₂ : List TraceEntry} {lid : Nat}
    (h : NoInvokeAfterStop t)
    (heq : t = t₁ ++ TraceEntry.cmd Cmd.stopPropagation :: t₂) :
    TraceEntry.invoke lid ∉ t₂ := by
  induction t₁ generalizing t with
  | nil =>
    subst heq
    exact h.1 rfl lid
  | cons hd tl ih =>
    subst heq
    exact ih h.2 rfl

/-- The invariant a firing maintains: the (pending, applied) pair follows
the trace, the propagation flag is false exactly when a `stopPropagation`
was executed, no invocation follows a `stopPropagation`, and an error can
only be present once the closure has run. -/
def GoodFire (s : FireSt) : Prop :=
  (s.pending, s.applied) = evtFoldPA s.trace ∧
  (s.canProp = true ↔ TraceEntry.cmd Cmd.stopPropagation ∉ s.trace) ∧
  NoInvokeAfterStop s.trace ∧
  (s.applied = false → s.err = none)

theorem goodFire_runCmd {s : FireSt} (h : GoodFire s) (cErr : Option PError)
    (c : Cmd) : GoodFire (runCmd cErr s c) := by
  obtain ⟨hpa, hcp, hni, herr⟩ := h
  have hni' : ∀ e, (∃ lid, e = TraceEntry.invoke lid) = False →
      NoInvokeAfterStop (s.trace ++ [e]) := by
    intro e hne
    exact noInvokeAfterStop_snoc hni (fun hx => absurd hx (by simp [hne]))
  cases c with
  | stopPropagation =>
    refine ⟨?_, ?_, ?_, ?_⟩
    · simpa [runCmd, evtFoldPA_snoc, evtStepPA] using hpa
    · simp [runCmd]
    · exact noInvokeAfterStop_snoc hni (by simp)
    · simpa [runCmd] using herr
  | preventDefault =>
    refine ⟨?_, ?_, ?_, ?_⟩
    · simp only [runCmd, evtFoldPA_snoc, evtStepPA, ← hpa]
    · simpa [runCmd] using hcp
    · exact noInvokeAfterStop_snoc hni (by simp)
    · simpa [runCmd] using herr
  | defaultAction =>
    by_cases hp : s.pending
    · refine ⟨?_, ?_, ?_, ?_⟩
      · rw [show (runCmd cErr s .defaultAction).trace = s.trace ++ [.cmd .defaultAction]
            from by simp [runCmd, hp], evtFoldPA_snoc, ← hpa]
        simp [runCmd, hp, evtStepPA]
      · simpa [runCmd, hp] using hcp
      · simpa [runCmd, hp] using noInvokeAfterStop_snoc hni (by simp)
      · simp [runCmd, hp]
    · refine ⟨?_, ?_, ?_, ?_⟩
      · rw [show (runCmd cErr s .defaultAction).trace = s.trace ++ [.cmd .defaultAction]
            from by simp [runCmd, hp], evtFoldPA_snoc, ← hpa]
        simp [runCmd, hp, evtStepPA, Bool.of_not_eq_true hp]
      · simpa [runCmd, hp] using hcp
      · simpa [runCmd, hp] using noInvokeAfterStop_snoc hni (by simp)
      · simpa [runCmd, hp] using herr
  | addL t lid =>
    refine ⟨?_, ?_, ?_, ?_⟩
    · simpa [runCmd, evtFoldPA_snoc, evtStepPA] using hpa
    · simpa [runCmd] using hcp
    · exact noInvokeAfterStop_snoc hni (by simp)
    · simpa [runCmd] using herr
  | removeL t lid =>
    refine ⟨?_, ?_, ?_, ?_⟩
    · simpa [runCmd, evtFoldPA_snoc, evtStepPA] using hpa
    · simpa [runCmd] using hcp
    · exact noInvokeAfterStop_snoc hni (by simp)
    · simpa [runCmd] using herr
  | nop =>
    refine ⟨?_, ?_, ?_, ?_⟩
    · simpa [runCmd, evtFoldPA_snoc, evtStepPA] using hpa
    · simpa [runCmd] using hcp
    · exact noInvokeAfterStop_snoc hni (by simp)
    · simpa [runCmd] using herr

theorem goodFire_runScript {s : FireSt} (h : GoodFire s) (cErr : Option PError)
    (cmds : List Cmd) : GoodFire (runScript cErr s cmds) := by
  induction cmds generalizing s with
  | nil => exact h
  | cons c cs ih =>
    simp only [runScript]
    split
    · exact goodFire_runCmd h cErr c
    · exact ih (goodFire_runCmd h cErr c)

theorem goodFire_invoke {s : FireSt} (h : GoodFire s) (hcp : s.canProp = true)
    (lid : Nat) : GoodFire { s with trace := s.trace ++ [.invoke lid] } := by
  obtain ⟨hpa, hcpi, hni, herr⟩ := h
  refine ⟨?_, ?_, ?_, ?_⟩
  · simpa [evtFoldPA_snoc, evtStepPA] using hpa
  · simpa using hcpi
  · exact noInvokeAfterStop_snoc hni (fun _ => hcpi.mp hcp)
  · simpa using herr

theorem goodFire_fireLoop (cErr : Option PError) (env : Nat → List Cmd)
    (etype : String) (steps k : Nat) {s : FireSt} (h : GoodFire s) :
    GoodFire (fireLoop cErr env etype k steps s) := by
  induction steps generalizing k s with
  | zero => exact h
  | succ steps ih =>
    simp only [fireLoop]
    split
    · exact h
    · split
      · split
        · exact ih _ (goodFire_runScript (goodFire_invoke h (by assumption) _) cErr _)
        · exact ih _ h
      · exact ih _ h

theorem goodFire_fireEvent (cErr : Option PError) (env : Nat → List Cmd)
    (regs : Regs) (etype : String) :
    GoodFire (fireEvent cErr env regs etype) := by
  have hinit : GoodFire
      { regs := regs, canProp := true, pending := true, applied := false,
        err := none, trace := [] } := by
    refine ⟨rfl, by simp, trivial, fun _ => rfl⟩
  have hloop := goodFire_fireLoop cErr env etype
    (listenersOf regs etype).length 0 hinit
  simp only [fireEvent]
  split
  · exact hloop
  · exact goodFire_runCmd hloop cErr .defaultAction

theorem evtFoldPA_applied_false {t : List TraceEntry} (b : Bool)
    (h : TraceEntry.cmd Cmd.defaultAction ∉ t) :
    (t.foldl evtStepPA (b, false)).2 = false := by
  induction t generalizing b with
  | nil => rfl
  | cons e rest ih =>
    have hrest : TraceEntry.cmd Cmd.defaultAction ∉ rest :=
      fun hm => h (List.mem_cons_of_mem _ hm)
    have hne : e ≠ TraceEntry.cmd Cmd.defaultAction := fun he => h (he ▸ List.mem_cons_self _ _)
    match e with
    | .invoke lid => simpa [evtStepPA] using ih b hrest
    | .cmd .stopPropagation => simpa [evtStepPA] using ih b hrest
    | .cmd .preventDefault => simpa [evtStepPA] using ih false hrest
    | .cmd .defaultAction => exact absurd rfl hne
    | .cmd (.addL t' lid) => simpa [evtStepPA] using ih b hrest
    | .cmd (.removeL t' lid) => simpa [evtStepPA] using ih b hrest
    | .cmd .nop => simpa [evtStepPA] using ih b hrest

theorem evtFoldPA_dead (t : List TraceEntry) :
    t.foldl evtStepPA (false, false) = (false, false) := by
  induction t with
  | nil => rfl
  | cons e rest ih =>
    match e with
    | .invoke lid => simpa [evtStepPA] using ih
    | .cmd .stopPropagation => simpa [evtStepPA] using ih
    | .cmd .preventDefault => simpa [evtStepPA] using ih
    | .cmd .defaultAction => simpa [evtStepPA] using ih
    | .cmd (.addL t' lid) => simpa [evtStepPA] using ih
    | .cmd (.removeL t' lid) => simpa [evtStepPA] using ih
    | .cmd .nop => simpa [evtStepPA] using ih

theorem evtFoldPA_of_split {t t₁ t₂ : List TraceEntry}
    (heq : t = t₁ ++ TraceEntry.cmd Cmd.preventDefault :: t₂)
    (hnd : TraceEntry.cmd Cmd.defaultAction ∉ t₁) :
    (evtFoldPA t).2 = false := by
  subst heq
  have h1 : (t₁.foldl evtStepPA (true, false)).2 = false :=
    evtFoldPA_applied_false true hnd
  simp only [evtFoldPA, List.foldl_append, List.foldl_cons]
  have : evtStepPA (t₁.foldl evtStepPA (true, false)) (.cmd .preventDefault) =
      (false, false) := by
    simp [evtStepPA, Prod.ext_iff, h1]
  rw [this, evtFoldPA_dead]

theorem evtFoldPA_no_prevent {t : List TraceEntry}
    (h : TraceEntry.cmd Cmd.preventDefault ∉ t) :
    evtFoldPA t = (true, false) ∨ evtFoldPA t = (false, true) := by
  suffices hgen : ∀ init : Bool × Bool,
      init = (true, false) ∨ init = (false, true) →
      t.foldl evtStepPA init = (true, false) ∨
        t.foldl evtStepPA init = (false, true) by
    exact hgen _ (Or.inl rfl)
  induction t with
  | nil => intro init hi; exact hi
  | cons e rest ih =>
    intro init hi
    have hrest : TraceEntry.cmd Cmd.preventDefault ∉ rest :=
      fun hm => h (List.mem_cons_of_mem _ hm)
    have hne : e ≠ TraceEntry.cmd Cmd.preventDefault :=
      fun he => h (he ▸ List.mem_cons_self _ _)
    have hstep : evtStepPA init e = (true, false) ∨ evtStepPA init e = (false, true) := by
      match e with
      | .invoke lid => simpa [evtStepPA] using hi
      | .cmd .stopPropagation => simpa [evtStepPA] using hi
      | .cmd .preventDefault => exact absurd rfl hne
      | .cmd .defaultAction =>
        rcases hi with rfl | rfl
        · simp [evtStepPA]
        · simp [evtStepPA]
      | .cmd (.addL t' lid) => simpa [evtStepPA] using hi
      | .cmd (.removeL t' lid) => simpa [evtStepPA] using hi
      | .cmd .nop => simpa [evtStepPA] using hi
    have hrw := ih hrest
    simp only [List.foldl_cons]
    exact hrw _ hstep

/-- A firing during which a `preventDefault` was executed with no
`defaultAction` executed before it never runs the closure and never raises
an error from it. -/
theorem fireEvent_prevented (cErr : Option PError) (env : Nat → List Cmd)
    (regs : Regs) (etype : String) {t₁ t₂ : List TraceEntry}
    (heq : (fireEvent cErr env regs etype).trace =
      t₁ ++ TraceEntry.cmd Cmd.preventDefault :: t₂)
    (hnd : TraceEntry.cmd Cmd.defaultAction ∉ t₁) :
    (fireEvent cErr env regs etype).applied = false ∧
      (fireEvent cErr env regs etype).err = none := by
  obtain ⟨hpa, _, _, herr⟩ := goodFire_fireEvent cErr env regs etype
  have happ : (fireEvent cErr env regs etype).applied = false := by
    have := congrArg Prod.snd hpa
    simp only at this
    rw [this, evtFoldPA_of_split heq hnd]
  exact ⟨happ, herr happ⟩

theorem goodFire_init (regs : Regs) :
    GoodFire (⟨regs, true, true, false, none, []⟩ : FireSt) :=
  ⟨rfl, by simp, trivial, fun _ => rfl⟩

theorem evtFoldPA_ne_both (t : List TraceEntry) : evtFoldPA t ≠ (true, true) := by
  suffices hgen : ∀ init : Bool × Bool, init ≠ (true, true) →
      t.foldl evtStepPA init ≠ (true, true) by
    exact hgen _ (by simp)
  induction t with
  | nil => intro init hi; exact hi
  | cons e rest ih =>
    intro init hi
    refine ih _ ?_
    match e with
    | .invoke lid => simpa [evtStepPA] using hi
    | .cmd .stopPropagation => simpa [evtStepPA] using hi
    | .cmd .preventDefault => simp [evtStepPA]
    | .cmd .defaultAction =>
      by_cases hp : init.1 <;> simp [evtStepPA, hp, hi]
    | .cmd (.addL t' lid) => simpa [evtStepPA] using hi
    | .cmd (.removeL t' lid) => simpa [evtStepPA] using hi
    | .cmd .nop => simpa [evtStepPA] using hi

/-- After a firing completes (or aborts on a closure error), the event's
default-action closure is no longer stored. -/
theorem fireEvent_pending_false (cErr : Option PError) (env : Nat → List Cmd)
    (regs : Regs) (etype : String) :
    (fireEvent cErr env regs etype).pending = false := by
  obtain ⟨hpaL, _, _, herrL⟩ := goodFire_fireLoop cErr env etype
    (listenersOf regs etype).length 0 (goodFire_init regs)
  simp only [fireEvent]
  split
  · -- abort on a propagating closure error: the closure ran, so not pending
    rename_i he
    by_cases ha :
        (fireLoop cErr env etype 0 (listenersOf regs etype).length
          ⟨regs, true, true, false, none, []⟩).applied
    · by_cases hp :
          (fireLoop cErr env etype 0 (listenersOf regs etype).length
            ⟨regs, true, true, false, none, []⟩).pending
      · exfalso
        apply evtFoldPA_ne_both
          (fireLoop cErr env etype 0 (listenersOf regs etype).length
            ⟨regs, true, true, false, none, []⟩).trace
        rw [← hpaL, hp, ha]
      · simpa using hp
    · have := herrL (by simpa using ha)
      rw [this] at he
      simp at he
  · -- the final defaultAction call clears the closure either way
    by_cases hp :
        (fireLoop cErr env etype 0 (listenersOf regs etype).length
          ⟨regs, true, true, false, none, []⟩).pending <;>
      simp [runCmd, hp]

/-- A firing during which no `preventDefault` was executed runs the closure
(early via a listener, or by the final `defaultAction()` call). -/
theorem fireEvent_applied (cErr : Option PError) (env : Nat → List Cmd)
    (regs : Regs) (etype : String)
    (h : TraceEntry.cmd Cmd.preventDefault ∉ (fireEvent cErr env regs etype).trace) :
    (fireEvent cErr env regs etype).applied = true := by
  obtain ⟨hpa, _, _, _⟩ := goodFire_fireEvent cErr env regs etype
  rcases evtFoldPA_no_prevent h with hfold | hfold
  · exfalso
    rw [hfold] at hpa
    have := fireEvent_pending_false cErr env regs etype
    rw [Prod.ext_iff] at hpa
    simp only at hpa
    rw [this] at hpa
    exact absurd hpa.1 (by simp)
  · rw [hfold] at hpa
    rw [Prod.ext_iff] at hpa
    exact hpa.2

/-!
Equivalence of `_fireEvent` with the snapshot algorithm when no listener in
the firing edits the listener list of the fired type.
-/

theorem listenersOf_addListenerReg_ne (regs : Regs) (t etype : String)
    (lid : Nat) (h : t ≠ etype) :
    listenersOf (addListenerReg regs t lid) etype = listenersOf regs etype := by
  simp only [addListenerReg]
  split
  · simp [listenersOf, alLookup_append_ne _ _ _ _ h]
  · split
    · rfl
    · simp [listenersOf, alLookup_alSet_ne _ _ _ _ h]

theorem listenersOf_removeListenerReg_ne (regs : Regs) (t etype : String)
    (lid : Nat) (h : t ≠ etype) :
    listenersOf (removeListenerReg regs t lid) etype = listenersOf regs etype := by
  simp only [removeListenerReg]
  split
  · rfl
  · split
    · rfl
    · split <;> simp [listenersOf, alLookup_alSet_ne _ _ _ _ h]

/-- Scripts in `env` never add or remove listeners for event type `etype`. -/
def ScriptsAvoid (env : Nat → List Cmd) (etype : String) : Prop :=
  ∀ lid c, c ∈ env lid →
    (∀ lid2, c ≠ Cmd.addL etype lid2 ∧ c ≠ Cmd.removeL etype lid2)

theorem listenersOf_runCmd (cErr : Option PError) (s : FireSt) (c : Cmd)
    (etype : String)
    (hc : ∀ lid2, c ≠ Cmd.addL etype lid2 ∧ c ≠ Cmd.removeL etype lid2) :
    listenersOf (runCmd cErr s c).regs etype = listenersOf s.regs etype := by
  cases c with
  | stopPropagation => simp [runCmd]
  | preventDefault => simp [runCmd]
  | defaultAction => by_cases hp : s.pending <;> simp [runCmd, hp]
  | addL t lid =>
    have ht : t ≠ etype := by
      intro he
      exact (hc lid).1 (by rw [he])
    simp [runCmd, listenersOf_addListenerReg_ne _ _ _ _ ht]
  | removeL t lid =>
    have ht : t ≠ etype := by
      intro he
      exact (hc lid).2 (by rw [he])
    simp [runCmd, listenersOf_removeListenerReg_ne _ _ _ _ ht]
  | nop => simp [runCmd]

theorem listenersOf_runScript (cErr : Option PError) (s : FireSt)
    (cmds : List Cmd) (etype : String)
    (hc : ∀ c ∈ cmds, ∀ lid2, c ≠ Cmd.addL etype lid2 ∧ c ≠ Cmd.removeL etype lid2) :
    listenersOf (runScript cErr s cmds).regs etype = listenersOf s.regs etype := by
  induction cmds generalizing s with
  | nil => rfl
  | cons c cs ih =>
    simp only [runScript]
    split
    · exact listenersOf_runCmd cErr s c etype (hc c (List.mem_cons_self _ _))
    · rw [ih _ (fun c' hc' => hc c' (List.mem_cons_of_mem _ hc'))]
      exact listenersOf_runCmd cErr s c etype (hc c (List.mem_cons_self _ _))

theorem dropAt {α : Type} : ∀ (l : List α) (k : Nat) (h : k < l.length),
    l.drop k = l.get ⟨k, h⟩ :: l.drop (k + 1)
  | _ :: _, 0, _ => rfl
  | _ :: l, k + 1, h => dropAt l k (Nat.lt_of_succ_lt_succ h)

/-- The fold body of `specSnapshotFire`. -/
def snapStep (cErr : Option PError) (env : Nat → List Cmd) (s : FireSt)
    (lid : Nat) : FireSt :=
  if s.err.isSome then s
  else if s.canProp then
    runScript cErr { s with trace := s.trace ++ [.invoke lid] } (env lid)
  else s

theorem snapFold_err (cErr : Option PError) (env : Nat → List Cmd)
    (l : List Nat) (s : FireSt) (he : s.err.isSome) :
    l.foldl (snapStep cErr env) s = s := by
  induction l with
  | nil => rfl
  | cons lid rest ih => simp [snapStep, he, ih]

theorem fireLoop_eq_snapFold (cErr : Option PError) (env : Nat → List Cmd)
    (etype : String) (henv : ScriptsAvoid env etype) (l₀ : List Nat) :
    ∀ (steps k : Nat) (s : FireSt), listenersOf s.regs etype = l₀ →
      k + steps = l₀.length →
      fireLoop cErr env etype k steps s =
        (l₀.drop k).foldl (snapStep cErr env) s := by
  intro steps
  induction steps with
  | zero =>
    intro k s _ hk
    have : l₀.drop k = [] := by
      apply List.drop_eq_nil_of_le
      omega
    simp [fireLoop, this]
  | succ steps ih =>
    intro k s hstable hk
    have hklt : k < l₀.length := by omega
    rw [dropAt l₀ k hklt, List.foldl_cons]
    simp only [fireLoop]
    by_cases he : s.err.isSome
    · rw [snapFold_err cErr env _ _ (by simp [snapStep, he])]
      simp [he, snapStep]
    · have hlen : k < (listenersOf s.regs etype).length := by rw [hstable]; exact hklt
      have hget : (listenersOf s.regs etype).get ⟨k, hlen⟩ = l₀.get ⟨k, hklt⟩ := by
        cases hstable
        rfl
      by_cases hcp : s.canProp
      · have hstable' : listenersOf (runScript cErr
            { s with trace := s.trace ++ [.invoke (l₀.get ⟨k, hklt⟩)] }
            (env (l₀.get ⟨k, hklt⟩))).regs etype = l₀ := by
          rw [listenersOf_runScript cErr _ _ etype (fun c hc => henv _ c hc)]
          exact hstable
        rw [if_neg he, dif_pos hlen, if_pos hcp, hget,
          ih (k + 1) _ hstable' (by omega)]
        simp [snapStep, he, hcp]
      · rw [if_neg he, dif_pos hlen, if_neg hcp, ih (k + 1) s hstable (by omega)]
        simp [snapStep, he, hcp]

/-- When no listener in the firing adds or removes listeners for the fired
type, `_fireEvent` behaves exactly as the spec's snapshot algorithm. -/
theorem fireEvent_eq_snapshot (cErr : Option PError) (env : Nat → List Cmd)
    (regs : Regs) (etype : String) (henv : ScriptsAvoid env etype) :
    fireEvent cErr env regs etype = specSnapshotFire cErr env regs etype := by
  simp only [fireEvent, specSnapshotFire]
  rw [show (List.foldl
      (fun s lid =>
        if s.err.isSome = true then s
        else if s.canProp = true then
          runScript cErr { s with trace := s.trace ++ [.invoke lid] } (env lid)
        else s)
      ⟨regs, true, true, false, none, []⟩ (listenersOf regs etype)) =
      (listenersOf regs etype).foldl (snapStep cErr env)
        ⟨regs, true, true, false, none, []⟩ from rfl]
  have hfl := fireLoop_eq_snapFold cErr env etype henv (listenersOf regs etype)
    (listenersOf regs etype).length 0 ⟨regs, true, true, false, none, []⟩ rfl
    (by simp)
  rw [List.drop_zero] at hfl
  rw [hfl]

/-!
The cascade of `removeNode` and sequences of node operations.
-/

theorem alLookup_append_left_none {α : Type} {pre : List (String × α)}
    {k : String} (h : alLookup pre k = none) (l : List (String × α)) :
    alLookup (pre ++ l) k = alLookup l k := by
  induction pre with
  | nil => rfl
  | cons hd tl ih =>
    simp only [alLookup, List.cons_append] at h ⊢
    split at h
    · exact absurd h (by simp)
    · simp only [*, if_neg]
      exact ih h

theorem alErase_append_left_none {α : Type} {pre : List (String × α)}
    {k : String} (h : alLookup pre k = none) (l : List (String × α)) :
    alErase (pre ++ l) k = pre ++ alErase l k := by
  induction pre with
  | nil => rfl
  | cons hd tl ih =>
    simp only [alLookup] at h
    split at h
    · exact absurd h (by simp)
    · rename_i hne
      show alErase ((hd.1, hd.2) :: (tl ++ l)) k = _
      simp only [alErase, if_neg hne, List.cons_append]
      rw [ih h]

theorem alLookup_mem {α : Type} {l : List (String × α)} {k : String} {v : α}
    (h : alLookup l k = some v) : (k, v) ∈ l := by
  induction l with
  | nil => simp [alLookup] at h
  | cons hd tl ih =>
    simp only [alLookup] at h
    split at h
    · rename_i heq
      have hv : hd.2 = v := Option.some.inj h
      have hpr : (k, v) = hd := by rw [← heq, ← hv]
      rw [hpr]
      exact List.mem_cons_self _ _
    · exact List.mem_cons_of_mem _ (ih h)

theorem alErase_subset {α : Type} {l : List (String × α)} {k : String}
    {pr : String × α} (h : pr ∈ alErase l k) : pr ∈ l := by
  induction l with
  | nil => simp [alErase] at h
  | cons hd tl ih =>
    simp only [alErase] at h
    split at h
    · exact List.mem_cons_of_mem _ h
    · rcases List.mem_cons.mp h with h1 | h1
      · rw [h1]
        exact List.mem_cons_self _ _
      · exact List.mem_cons_of_mem _ (ih h1)

theorem cascade_foldl (id : String) :
    ∀ (es pre : List (String × StoredEdge)) (p : PaperSt) (log : List String),
      p.edges = pre ++ es →
      (∀ k ∈ es.map Prod.fst, alLookup pre k = none) →
      (es.map Prod.fst).Nodup →
      ((es.map Prod.fst).foldl (cascadeStep id) (p, log)).1 =
        { p with edges := pre ++ es.filter (fun pr => !refersTo pr.2 id) } := by
  intro es
  induction es with
  | nil =>
    intro pre p log hedges _ _
    simp only [List.map_nil, List.foldl_nil, List.filter_nil, List.append_nil]
    rw [show pre = p.edges from by rw [hedges, List.append_nil]]
  | cons hd rest ih =>
    intro pre p log hedges hdisj hnd
    obtain ⟨k, e⟩ := hd
    have hkpre : alLookup pre k = none := hdisj k (by simp)
    have hlk : alLookup p.edges k = some e := by
      rw [hedges, alLookup_append_left_none hkpre]
      simp [alLookup]
    simp only [List.map_cons, List.foldl_cons]
    have hnd' : (rest.map Prod.fst).Nodup := (List.nodup_cons.mp hnd).2
    have hknotin : k ∉ rest.map Prod.fst := (List.nodup_cons.mp hnd).1
    by_cases href : refersTo e id
    · have hstep : cascadeStep id (p, log) k =
          ((removeEdge p k).st, log ++ (removeEdge p k).fired) := by
        simp [cascadeStep, hlk, href]
      rw [hstep]
      have hre : (removeEdge p k).st = { p with edges := pre ++ rest } := by
        simp only [removeEdge, hasKey, hlk, Option.isSome_some, if_true]
        rw [hedges, alErase_append_left_none hkpre]
        simp [alErase]
      rw [hre]
      rw [ih pre _ _ (by rfl) (fun k' hk' => hdisj k' (by simp [hk'])) hnd']
      simp [href]
    · have hstep : cascadeStep id (p, log) k = (p, log) := by
        simp [cascadeStep, hlk, href]
      rw [hstep]
      have hdisj' : ∀ k' ∈ rest.map Prod.fst, alLookup (pre ++ [(k, e)]) k' = none := by
        intro k' hk'
        have hne : k ≠ k' := fun he => hknotin (he ▸ hk')
        rw [alLookup_append_ne pre k' k e hne]
        exact hdisj k' (by simp [hk'])
      have := ih (pre ++ [(k, e)]) p log (by rw [hedges]; simp) hdisj' hnd'
      rw [this]
      simp [href]

/-- A sequence element for Testable Property 1: one `addNode` or
`removeNode` call. -/
inductive NodeOp where
  | add (n : InputNode)
  | remove (id : String)
  deriving DecidableEq, Repr

/-- Run a list of node operations, threading the coordinator state (errors
are raised to the caller; the state a failed call leaves behind is kept). -/
def runNodeOps (p : PaperSt) : List NodeOp → PaperSt
  | [] => p
  | .add n :: rest => runNodeOps (addNode p n).st rest
  | .remove i :: rest => runNodeOps (removeNode p i).st rest

/-- The spec's account of the registry contents: the ids successfully added
and not subsequently removed, in order. -/
def nodeSpecStep (acc : List String) : NodeOp → List String
  | .add n => if n.id ∈ acc then acc else acc ++ [n.id]
  | .remove i => acc.erase i

/-- The spec's predicted registry key list after a sequence of calls. -/
def specAddedNotRemoved (ops : List NodeOp) : List String :=
  ops.foldl nodeSpecStep []

/-- The invariant tying the coordinator state to the spec's id list during a
node-only operation sequence. -/
def NodeInv (p : PaperSt) (acc : List String) : Prop :=
  p.nodes.map Prod.fst = acc ∧ acc.Nodup ∧
    (∀ pr ∈ p.nodes, pr.2.hasElement = true) ∧ p.edges = []

theorem runNodeOps_inv :
    ∀ (ops : List NodeOp) (p : PaperSt) (acc : List String),
      (∀ op ∈ ops, match op with
        | NodeOp.add n => n.hasElement = true
        | NodeOp.remove _ => True) →
      NodeInv p acc →
      NodeInv (runNodeOps p ops) (ops.foldl nodeSpecStep acc) := by
  intro ops
  induction ops with
  | nil => intro p acc _ hinv; exact hinv
  | cons op rest ih =>
    intro p acc hops hinv
    obtain ⟨hmap, hnd, hel, hedg⟩ := hinv
    have hops' : ∀ op' ∈ rest, match op' with
        | NodeOp.add n => n.hasElement = true
        | NodeOp.remove _ => True :=
      fun op' h => hops op' (List.mem_cons_of_mem _ h)
    rw [List.foldl_cons]
    cases op with
    | add n =>
      simp only [runNodeOps]
      have hneel : n.hasElement = true := by
        simpa using hops (NodeOp.add n) (List.mem_cons_self _ _)
      by_cases hmem : n.id ∈ acc
      · have hkey : hasKey p.nodes n.id = true := by
          rw [hasKey_iff_mem, hmap]; exact hmem
        have : (addNode p n).st = p := by simp [addNode, hkey]
        rw [this]
        have : nodeSpecStep acc (NodeOp.add n) = acc := by simp [nodeSpecStep, hmem]
        rw [this]
        exact ih p acc hops' ⟨hmap, hnd, hel, hedg⟩
      · have hkey : hasKey p.nodes n.id = false := by
          rw [Bool.eq_false_iff]
          intro hk
          exact hmem (hmap ▸ (hasKey_iff_mem _ _).mp hk)
        have hst : (addNode p n).st =
            { p with nodes := p.nodes ++
                [(n.id, ⟨n.coords, true,
                  some ⟨roundToNearest n.coords.x p.gridSize p.gridSize,
                    roundToNearest n.coords.y p.gridSize p.gridSize⟩⟩)] } := by
          simp [addNode, hkey, hneel]
        rw [hst]
        have hspec : nodeSpecStep acc (NodeOp.add n) = acc ++ [n.id] := by
          simp [nodeSpecStep, hmem]
        rw [hspec]
        refine ih _ _ hops' ⟨?_, ?_, ?_, ?_⟩
        · simp [hmap]
        · simp only [List.nodup_append, hnd]
          refine ⟨by simp, by simp, ?_⟩
          intro a ha hb
          simp only [List.mem_singleton] at hb
          exact hmem (hb ▸ ha)
        · intro pr hpr
          rcases List.mem_append.mp hpr with h | h
          · exact hel pr h
          · rcases List.mem_singleton.mp h with rfl
            rfl
        · exact hedg
    | remove i =>
      simp only [runNodeOps]
      by_cases hkey : hasKey p.nodes i
      · obtain ⟨sn, hsn⟩ := Option.isSome_iff_exists.mp (by simpa [hasKey] using hkey)
        have hsnel : sn.hasElement = true := hel (i, sn) (alLookup_mem hsn)
        have hcasc : ((p.edges.map Prod.fst).foldl (cascadeStep i) (p, [])).1 = p := by
          rw [hedg]
          rfl
        have hst : (removeNode p i).st = { p with nodes := alErase p.nodes i } := by
          simp only [removeNode, hkey, if_true, hcasc, hsn, Option.elim, hsnel]
        rw [hst]
        have hspec : nodeSpecStep acc (NodeOp.remove i) = acc.erase i := rfl
        rw [hspec]
        refine ih _ _ hops' ⟨?_, ?_, ?_, ?_⟩
        · rw [alErase_map_fst, hmap]
        · exact hnd.erase i
        · exact fun pr hpr => hel pr (alErase_subset hpr)
        · exact hedg
      · have hst : (removeNode p i).st = p := by
          simp [removeNode, hkey]
        rw [hst]
        have hmem : i ∉ acc := by
          rw [← hmap]
          intro hm
          exact (by simpa [hkey] using (hasKey_iff_mem p.nodes i).mpr hm : False)
        have hspec : nodeSpecStep acc (NodeOp.remove i) = acc :=
          by simp [nodeSpecStep, List.erase_of_not_mem hmem]
        rw [hspec]
        exact ih p acc hops' ⟨hmap, hnd, hel, hedg⟩

/-!
Claim theorems.
-/

theorem hasKey_false_lookup {α : Type} {l : List (String × α)} {k : String}
    (h : hasKey l k = false) : alLookup l k = none := by
  cases h' : alLookup l k with
  | none => rfl
  | some v => rw [hasKey, h'] at h; simp at h

theorem updateEdgeRoute_err_fired (p : PaperSt) (id : String)
    (h : (updateEdgeRoute p id).1.isSome) : (updateEdgeRoute p id).2 = [] := by
  revert h
  simp only [updateEdgeRoute]
  split
  · intro _; rfl
  · split
    · intro h; simp at h
    · intro _; rfl

/-- Claim C1 is false on the code: with grid unit 20, `addNode` with
coordinates (65, 47) stores (65, 47) verbatim in the node registry — the
stored x-coordinate 65 is not a multiple of the unit (only the element's
`translate` placement is rounded). -/
theorem c1_counterexample :
    (emptyPaper 20).gridSize = 20 ∧
    ((alLookup (addNode (emptyPaper 20) ⟨"n1", ⟨65, 47⟩, true⟩).st.nodes
      "n1").map (fun sn => sn.coords)) = some ⟨65, 47⟩ ∧
    ¬((65 : Int) % 20 = 0) := by
  refine ⟨rfl, ?_, by decide⟩
  decide

/-- Claim C1 (amended): stored coordinates are the caller-supplied values
verbatim, for every grid unit — pass-through is unconditional, not only for
unit 0.  `addNode` stores the raw input coordinates (rounding only the
element placement), the node coordinate setter stores the raw new
coordinates (and moves the element to them), and `addEdge` and the edge
endpoint/waypoint setters store the given endpoints and waypoints
verbatim. -/
theorem c1_amended :
    (∀ (p : PaperSt) (n : InputNode), hasKey p.nodes n.id = false →
      n.hasElement = true →
      alLookup (addNode p n).st.nodes n.id =
        some ⟨n.coords, true,
          some ⟨roundToNearest n.coords.x p.gridSize p.gridSize,
            roundToNearest n.coords.y p.gridSize p.gridSize⟩⟩) ∧
    (∀ (p : PaperSt) (id : String) (c : Coord) (sn : StoredNode),
      alLookup p.nodes id = some sn →
      areCoordsEqual sn.coords c = false →
      alLookup (setNodeCoords p id c).st.nodes id =
        some { sn with coords := c, handlePos := some c }) ∧
    (∀ (p : PaperSt) (e : InputEdge), hasKey p.edges e.id = false →
      (e.hasElement && validEndPt p e.source && validEndPt p e.target) = true →
      alLookup (addEdge p e).st.edges e.id =
        some ⟨e.source, e.target, e.coords⟩) ∧
    (∀ (p : PaperSt) (id : String) (ep : EndPt) (e0 : StoredEdge),
      alLookup p.edges id = some e0 →
      alLookup (setEdgeSource p id ep).st.edges id =
        some { e0 with source := ep }) ∧
    (∀ (p : PaperSt) (id : String) (ep : EndPt) (e0 : StoredEdge),
      alLookup p.edges id = some e0 →
      alLookup (setEdgeTarget p id ep).st.edges id =
        some { e0 with target := ep }) ∧
    (∀ (p : PaperSt) (id : String) (cs : List Coord) (e0 : StoredEdge),
      alLookup p.edges id = some e0 →
      alLookup (setEdgeCoords p id cs).st.edges id =
        some { e0 with coords := cs }) := by
  refine ⟨?_, ?_, ?_, ?_, ?_, ?_⟩
  · intro p n hk hel
    simp only [addNode, hk, Bool.false_eq_true, if_false, hel, if_true]
    exact alLookup_append_of_none (hasKey_false_lookup hk) _
  · intro p id c sn hsn hne
    simp only [setNodeCoords, hsn, hne, Bool.false_eq_true, if_false]
    exact alLookup_alSet_self (by simp [hsn]) _
  · intro p e hk hval
    simp only [addEdge, hk, Bool.false_eq_true, if_false, hval, if_true]
    exact alLookup_append_of_none (hasKey_false_lookup hk) _
  · intro p id ep e0 he
    simp only [setEdgeSource, he]
    exact alLookup_alSet_self (by simp [he]) _
  · intro p id ep e0 he
    simp only [setEdgeTarget, he]
    exact alLookup_alSet_self (by simp [he]) _
  · intro p id cs e0 he
    simp only [setEdgeCoords, he]
    exact alLookup_alSet_self (by simp [he]) _

/-- Witness for C1 (amended) at concrete inputs: an add with unit 0 stores
(3, 9) verbatim, and a move on a unit-20 paper stores (65, 47) verbatim. -/
theorem c1_witness :
    (alLookup (addNode (emptyPaper 0) ⟨"w", ⟨3, 9⟩, true⟩).st.nodes "w" =
      some ⟨⟨3, 9⟩, true, some ⟨3, 9⟩⟩) ∧
    (alLookup (setNodeCoords
        ⟨20, [("n", ⟨⟨60, 40⟩, true, some ⟨60, 40⟩⟩)], [], none⟩
        "n" ⟨65, 47⟩).st.nodes "n" =
      some ⟨⟨65, 47⟩, true, some ⟨65, 47⟩⟩) :=
  ⟨c1_amended.1 (emptyPaper 0) ⟨"w", ⟨3, 9⟩, true⟩ (by decide) rfl,
    c1_amended.2.1 ⟨20, [("n", ⟨⟨60, 40⟩, true, some ⟨60, 40⟩⟩)], [], none⟩
      "n" ⟨65, 47⟩ ⟨⟨60, 40⟩, true, some ⟨60, 40⟩⟩ (by decide) (by decide)⟩

/-- Claim C2 is false on the code: `addNode` with a fresh id whose component
yields no renderable element fires the `add-node` event and inserts the
node into the registry before throwing `E_INV_ELEM` — the failure is raised
after an event fired and after a registry mutation. -/
theorem c2_counterexample :
    (addNode (emptyPaper 20) ⟨"n1", ⟨65, 47⟩, false⟩).err =
      some PError.invalidElem ∧
    (addNode (emptyPaper 20) ⟨"n1", ⟨65, 47⟩, false⟩).fired = ["add-node"] ∧
    hasKey (addNode (emptyPaper 20) ⟨"n1", ⟨65, 47⟩, false⟩).st.nodes "n1" =
      true := by
  refine ⟨?_, ?_, ?_⟩ <;> decide

/-- Claim C2 (amended): `DuplicateId` and `NotFound` failures raised by each
entry point's own existence guard occur before any event and before any
registry mutation and leave the state exactly as it was, and so does
`addEdge`'s `InvalidElement`; but `addNode`'s `InvalidElement` fires
`add-node` and stores the node before failing, and an edge endpoint or
waypoint setter applies the new value to the registry before a `NotFound`
raised by the subsequent route recomputation (which then fires no event). -/
theorem c2_amended :
    (∀ (p : PaperSt) (n : InputNode), hasKey p.nodes n.id = true →
      addNode p n = ⟨p, some .dupId, []⟩) ∧
    (∀ (p : PaperSt) (n : InputNode), hasKey p.nodes n.id = false →
      n.hasElement = false →
      addNode p n = ⟨{ p with nodes := p.nodes ++ [(n.id, ⟨n.coords, false, none⟩)] },
        some .invalidElem, ["add-node"]⟩) ∧
    (∀ (p : PaperSt) (e : InputEdge), hasKey p.edges e.id = true →
      addEdge p e = ⟨p, some .dupId, []⟩) ∧
    (∀ (p : PaperSt) (e : InputEdge), hasKey p.edges e.id = false →
      (e.hasElement && validEndPt p e.source && validEndPt p e.target) = false →
      addEdge p e = ⟨p, some .invalidElem, []⟩) ∧
    (∀ (p : PaperSt) (id : String), hasKey p.nodes id = false →
      removeNode p id = ⟨p, some .noId, []⟩) ∧
    (∀ (p : PaperSt) (id : String), hasKey p.edges id = false →
      removeEdge p id = ⟨p, some .noId, []⟩) ∧
    (∀ (p : PaperSt) (id : String) (c : Coord), alLookup p.nodes id = none →
      setNodeCoords p id c = ⟨p, some .noId, []⟩) ∧
    (∀ (p : PaperSt) (id : String) (ep : EndPt), alLookup p.edges id = none →
      setEdgeSource p id ep = ⟨p, some .noId, []⟩) ∧
    (∀ (p : PaperSt) (id : String) (ep : EndPt), alLookup p.edges id = none →
      setEdgeTarget p id ep = ⟨p, some .noId, []⟩) ∧
    (∀ (p : PaperSt) (id : String) (cs : List Coord), alLookup p.edges id = none →
      setEdgeCoords p id cs = ⟨p, some .noId, []⟩) ∧
    (∀ (p : PaperSt) (id : String) (ep : EndPt) (e0 : StoredEdge),
      alLookup p.edges id = some e0 →
      (setEdgeSource p id ep).st.edges = alSet p.edges id { e0 with source := ep } ∧
      ((setEdgeSource p id ep).err.isSome → (setEdgeSource p id ep).fired = [])) := by
  refine ⟨?_, ?_, ?_, ?_, ?_, ?_, ?_, ?_, ?_, ?_, ?_⟩
  · intro p n hk
    simp [addNode, hk]
  · intro p n hk hel
    simp [addNode, hk, hel]
  · intro p e hk
    simp [addEdge, hk]
  · intro p e hk hval
    simp [addEdge, hk, hval]
  · intro p id hk
    simp [removeNode, hk]
  · intro p id hk
    simp [removeEdge, hk]
  · intro p id c h
    simp [setNodeCoords, h]
  · intro p id ep h
    simp [setEdgeSource, h]
  · intro p id ep h
    simp [setEdgeTarget, h]
  · intro p id cs h
    simp [setEdgeCoords, h]
  · intro p id ep e0 he
    refine ⟨?_, ?_⟩
    · simp [setEdgeSource, he]
    · intro herr
      simp only [setEdgeSource, he] at herr ⊢
      exact updateEdgeRoute_err_fired _ _ herr

/-- Witness for C2 (amended) at concrete inputs: a duplicate-id `addNode`
fails cleanly, and a `removeNode` of an unknown id fails cleanly. -/
theorem c2_witness :
    (addNode ⟨0, [("a", ⟨⟨1, 2⟩, true, none⟩)], [], none⟩ ⟨"a", ⟨0, 0⟩, true⟩ =
      ⟨⟨0, [("a", ⟨⟨1, 2⟩, true, none⟩)], [], none⟩, some .dupId, []⟩) ∧
    (removeNode (emptyPaper 0) "ghost" = ⟨emptyPaper 0, some .noId, []⟩) :=
  ⟨c2_amended.1 ⟨0, [("a", ⟨⟨1, 2⟩, true, none⟩)], [], none⟩
      ⟨"a", ⟨0, 0⟩, true⟩ (by decide),
    c2_amended.2.2.2.2.1 (emptyPaper 0) "ghost" (by decide)⟩

/-- Claim C3 is false on the code: `_fireEvent` iterates the live listener
array, not a snapshot.  With listeners 1 and 2 registered for type `t`,
listener 1 removing itself mid-firing shifts listener 2 to index 0, so the
`forEach` (already past index 0) never invokes it — while the snapshot
algorithm the claim describes invokes both. -/
theorem c3_counterexample :
    TraceEntry.invoke 2 ∉
      (fireEvent none (fun lid => if lid == 1 then [Cmd.removeL "t" 1] else [Cmd.nop])
        [("t", [1, 2])] "t").trace ∧
    TraceEntry.invoke 2 ∈
      (specSnapshotFire none (fun lid => if lid == 1 then [Cmd.removeL "t" 1] else [Cmd.nop])
        [("t", [1, 2])] "t").trace := by
  refine ⟨?_, ?_⟩ <;> decide

/-- Claim C3 (amended): when no listener running in the firing adds or
removes listeners for the event's own type, the firing coincides exactly
with the snapshot algorithm — listeners run in registration order while the
propagation flag holds, listeners added for the type during the firing are
not invoked in it, and the default action is invoked exactly once at the
end.  (When a listener does remove a listener of the fired type, later
listeners shift to lower indices and the one just after the removed
position is skipped, as the counterexample shows.) -/
theorem c3_amended (cErr : Option PError) (env : Nat → List Cmd) (regs : Regs)
    (etype : String) (henv : ScriptsAvoid env etype) :
    fireEvent cErr env regs etype = specSnapshotFire cErr env regs etype :=
  fireEvent_eq_snapshot cErr env regs etype henv

/-- Witness for C3 (amended): with two no-op listeners the live-array loop
and the snapshot algorithm agree. -/
theorem c3_witness :
    fireEvent none (fun _ => [Cmd.nop]) [("t", [1, 2])] "t" =
      specSnapshotFire none (fun _ => [Cmd.nop]) [("t", [1, 2])] "t" :=
  c3_amended none (fun _ => [Cmd.nop]) [("t", [1, 2])] "t"
    (fun _ c hc lid2 => by
      simp only [List.mem_singleton] at hc
      subst hc
      exact ⟨by simp, by simp⟩)

/-- Claim C4 is wrong about the code, and the code is the bug:
`removeListener` with a function not registered for the type is not a
no-op — `findIndex` returns `-1` and `splice(-1, 1)` removes the *last*
registered listener.  With listeners 1 and 2 registered for `add-node`,
removing the unregistered listener 99 deletes listener 2. -/
theorem c4_bug :
    (99 ∉ listenersOf [("add-node", [1, 2])] "add-node") ∧
    removeListenerReg [("add-node", [1, 2])] "add-node" 99 ≠
      [("add-node", [1, 2])] ∧
    removeListenerReg [("add-node", [1, 2])] "add-node" 99 =
      [("add-node", [1])] := by
  refine ⟨?_, ?_, ?_⟩ <;> decide

/-- Claim C5: once a listener executes `stopPropagation()`, no further
listener is invoked in that firing; and if no executed listener called
`preventDefault()`, the default action still runs (the closure is executed,
by a listener's early call or by the final `defaultAction()` call). -/
theorem c5_stop_propagation (cErr : Option PError) (env : Nat → List Cmd)
    (regs : Regs) (etype : String) :
    (∀ (t₁ t₂ : List TraceEntry) (lid : Nat),
      (fireEvent cErr env regs etype).trace =
        t₁ ++ TraceEntry.cmd Cmd.stopPropagation :: t₂ →
      TraceEntry.invoke lid ∉ t₂) ∧
    (TraceEntry.cmd Cmd.preventDefault ∉ (fireEvent cErr env regs etype).trace →
      (fireEvent cErr env regs etype).applied = true) := by
  obtain ⟨_, _, hni, _⟩ := goodFire_fireEvent cErr env regs etype
  exact ⟨fun t₁ t₂ lid heq => noInvokeAfterStop_split hni heq,
    fireEvent_applied cErr env regs etype⟩

/-- Witness for C5: listener 1 stops propagation, listener 2 is skipped,
and the default action still runs. -/
theorem c5_witness :
    (TraceEntry.invoke 2 ∉ [(TraceEntry.cmd Cmd.defaultAction)]) ∧
    (fireEvent none (fun lid => if lid == 1 then [Cmd.stopPropagation] else [Cmd.nop])
      [("t", [1, 2])] "t").applied = true :=
  ⟨(c5_stop_propagation none
      (fun lid => if lid == 1 then [Cmd.stopPropagation] else [Cmd.nop])
      [("t", [1, 2])] "t").1
      [TraceEntry.invoke 1] [TraceEntry.cmd Cmd.defaultAction] 2 (by decide),
    (c5_stop_propagation none
      (fun lid => if lid == 1 then [Cmd.stopPropagation] else [Cmd.nop])
      [("t", [1, 2])] "t").2 (by decide)⟩

/-- Claim C6: if a listener executes `preventDefault()` with no
`defaultAction()` executed before it, the deferred mutation never applies
and no error propagates — at the pipeline level (the closure never runs),
and end-to-end for `addNode`, `removeEdge` and `updateActiveItem` (the
registries and the active-item slot are exactly as before, and the call
returns without throwing). -/
theorem c6_prevent_default :
    (∀ (cErr : Option PError) (env : Nat → List Cmd) (regs : Regs)
        (etype : String) (t₁ t₂ : List TraceEntry),
      (fireEvent cErr env regs etype).trace =
        t₁ ++ TraceEntry.cmd Cmd.preventDefault :: t₂ →
      TraceEntry.cmd Cmd.defaultAction ∉ t₁ →
      (fireEvent cErr env regs etype).applied = false ∧
        (fireEvent cErr env regs etype).err = none) ∧
    (∀ (env : Nat → List Cmd) (p : PaperSt) (regs : Regs) (n : InputNode)
        (t₁ t₂ : List TraceEntry),
      (addNodeL env p regs n).trace = t₁ ++ TraceEntry.cmd Cmd.preventDefault :: t₂ →
      TraceEntry.cmd Cmd.defaultAction ∉ t₁ →
      (addNodeL env p regs n).st = p ∧ (addNodeL env p regs n).err = none) ∧
    (∀ (env : Nat → List Cmd) (p : PaperSt) (regs : Regs) (id : String)
        (t₁ t₂ : List TraceEntry),
      (removeEdgeL env p regs id).trace = t₁ ++ TraceEntry.cmd Cmd.preventDefault :: t₂ →
      TraceEntry.cmd Cmd.defaultAction ∉ t₁ →
      (removeEdgeL env p regs id).st = p ∧ (removeEdgeL env p regs id).err = none) ∧
    (∀ (env : Nat → List Cmd) (p : PaperSt) (regs : Regs)
        (item : Option (List (String × String))) (t₁ t₂ : List TraceEntry),
      (updateActiveItemL env p regs item).trace =
        t₁ ++ TraceEntry.cmd Cmd.preventDefault :: t₂ →
      TraceEntry.cmd Cmd.defaultAction ∉ t₁ →
      (updateActiveItemL env p regs item).st = p ∧
        (updateActiveItemL env p regs item).err = none) := by
  refine ⟨?_, ?_, ?_, ?_⟩
  · intro cErr env regs etype t₁ t₂ heq hnd
    exact fireEvent_prevented cErr env regs etype heq hnd
  · intro env p regs n t₁ t₂ heq hnd
    by_cases hk : hasKey p.nodes n.id
    · rw [show addNodeL env p regs n = ⟨p, regs, some .dupId, []⟩ from by
        simp [addNodeL, hk]] at heq ⊢
      exact absurd heq.symm (List.append_ne_nil_of_right_ne_nil _ (by simp))
    · have hf := fireEvent_prevented
        (if n.hasElement then none else some PError.invalidElem) env regs
        "add-node"
        (by
          rw [show (addNodeL env p regs n).trace =
            (fireEvent (if n.hasElement then none else some PError.invalidElem)
              env regs "add-node").trace from by simp [addNodeL, hk]] at heq
          exact heq) hnd
      constructor
      · simp [addNodeL, hk, hf.1]
      · simp [addNodeL, hk, hf.2]
  · intro env p regs id t₁ t₂ heq hnd
    by_cases hk : hasKey p.edges id
    · have hf := fireEvent_prevented none env regs "remove-edge"
        (by
          rw [show (removeEdgeL env p regs id).trace =
            (fireEvent none env regs "remove-edge").trace from by
              simp [removeEdgeL, hk]] at heq
          exact heq) hnd
      constructor
      · simp [removeEdgeL, hk, hf.1]
      · simp [removeEdgeL, hk, hf.2]
    · rw [show removeEdgeL env p regs id = ⟨p, regs, some .noId, []⟩ from by
        simp [removeEdgeL, hk]] at heq ⊢
      exact absurd heq.symm (List.append_ne_nil_of_right_ne_nil _ (by simp))
  · intro env p regs item t₁ t₂ heq hnd
    by_cases hm : (match p.activeItem, item with
        | some o, some it => keysMatch it o
        | _, _ => false)
    · rw [show updateActiveItemL env p regs item = ⟨p, regs, none, []⟩ from by
        simp [updateActiveItemL, hm]] at heq ⊢
      exact absurd heq.symm (List.append_ne_nil_of_right_ne_nil _ (by simp))
    · by_cases hn : p.activeItem.isNone && item.isNone
      · rw [show updateActiveItemL env p regs item = ⟨p, regs, none, []⟩ from by
          simp only [updateActiveItemL]
          rw [if_neg (by simpa using hm), if_pos hn]] at heq ⊢
        exact absurd heq.symm (List.append_ne_nil_of_right_ne_nil _ (by simp))
      · have hunf : updateActiveItemL env p regs item =
            ⟨if (fireEvent none env regs "update-active-item").applied then
                { p with activeItem := item } else p,
              (fireEvent none env regs "update-active-item").regs,
              (fireEvent none env regs "update-active-item").err,
              (fireEvent none env regs "update-active-item").trace⟩ := by
          simp only [updateActiveItemL]
          rw [if_neg (by simpa using hm), if_neg (by simpa using hn)]
        have hf := fireEvent_prevented none env regs "update-active-item"
          (by rw [hunf] at heq; exact heq) hnd

        constructor

        · rw [hunf]
          simp [hf.1]
        · rw [hunf]
          exact hf.2

/-- Witness for C6: a single listener that prevents the default leaves an
`addNode` call with no stored node and no error. -/
theorem c6_witness :
    (addNodeL (fun lid => if lid == 1 then [Cmd.preventDefault] else [Cmd.nop])
      (emptyPaper 0) [("add-node", [1])] ⟨"n", ⟨1, 1⟩, true⟩).st = emptyPaper 0 ∧
    (addNodeL (fun lid => if lid == 1 then [Cmd.preventDefault] else [Cmd.nop])
      (emptyPaper 0) [("add-node", [1])] ⟨"n", ⟨1, 1⟩, true⟩).err = none :=
  c6_prevent_default.2.1
    (fun lid => if lid == 1 then [Cmd.preventDefault] else [Cmd.nop])
    (emptyPaper 0) [("add-node", [1])] ⟨"n", ⟨1, 1⟩, true⟩
    [TraceEntry.invoke 1] [TraceEntry.cmd Cmd.defaultAction]
    (by decide) (by decide)

/-- Claim C7 is false on the code for a reachable state: an invalid-element
`addNode` still inserts the node (the C2 partial-state path), and on such a
node `removeNode` first cascades away every referring edge and then throws
at `getNodeElement().remove()` — the node itself is never deleted.  Below,
node `a` (stored without a usable element) is referenced by edge `e`; after
`removeNode("a")` the call has thrown, the edge registry is empty, yet `a`
is still present. -/
theorem c7_counterexample :
    hasKey (addNode (emptyPaper 0) ⟨"a", ⟨0, 0⟩, false⟩).st.nodes "a" = true ∧
    (removeNode
      (addEdge (addNode (emptyPaper 0) ⟨"a", ⟨0, 0⟩, false⟩).st
        ⟨"e", EndPt.ref "a", EndPt.pt ⟨2, 2⟩, [], true⟩).st "a").err =
      some PError.invalidElem ∧
    hasKey (removeNode
      (addEdge (addNode (emptyPaper 0) ⟨"a", ⟨0, 0⟩, false⟩).st
        ⟨"e", EndPt.ref "a", EndPt.pt ⟨2, 2⟩, [], true⟩).st "a").st.nodes "a" =
      true ∧
    (removeNode
      (addEdge (addNode (emptyPaper 0) ⟨"a", ⟨0, 0⟩, false⟩).st
        ⟨"e", EndPt.ref "a", EndPt.pt ⟨2, 2⟩, [], true⟩).st "a").st.edges =
      [] := by
  refine ⟨by decide, by decide, by decide, by decide⟩

/-- Claim C7 (amended): with no listener interference, `removeNode(id)` on a
state where the node is present and its handle has a usable element — which
every node stored by a *successful* `addNode` has — deletes that node and
exactly the edges whose source or target is the node reference `id`,
leaving every other node and edge unchanged (a key-erase on the node
registry, a filter on the edge registry).  When the stored node lacks a
usable element (reachable only through a failed invalid-element `addNode`),
the cascade still removes exactly the referring edges, but the call then
throws at element detachment and the node registry is left unchanged.
Edge-registry keys are duplicate-free in every state the coordinator
builds. -/
theorem c7_amended :
    (∀ (p : PaperSt) (id : String) (sn : StoredNode),
      alLookup p.nodes id = some sn → sn.hasElement = true →
      (p.edges.map Prod.fst).Nodup →
      (removeNode p id).st =
        { p with
            nodes := alErase p.nodes id
            edges := p.edges.filter (fun pr => !refersTo pr.2 id) } ∧
      (removeNode p id).err = none) ∧
    (∀ (p : PaperSt) (id : String) (sn : StoredNode),
      alLookup p.nodes id = some sn → sn.hasElement = false →
      (p.edges.map Prod.fst).Nodup →
      (removeNode p id).st =
        { p with edges := p.edges.filter (fun pr => !refersTo pr.2 id) } ∧
      (removeNode p id).err = some PError.invalidElem) := by
  constructor
  · intro p id sn hsn hel hnd
    have hk : hasKey p.nodes id = true := by simp [hasKey, hsn]
    have hcasc := cascade_foldl id p.edges [] p [] (by simp)
      (fun k _ => rfl) hnd
    rw [List.nil_append] at hcasc
    have hlook : (((p.edges.map Prod.fst).foldl (cascadeStep id) (p, [])).1).nodes
        = p.nodes := by rw [hcasc]
    constructor
    · simp only [removeNode, hk, if_true, hlook, hsn, Option.elim, hel, if_true]
      rw [hcasc]
    · simp only [removeNode, hk, if_true, hlook, hsn, Option.elim, hel, if_true]
  · intro p id sn hsn hel hnd
    have hk : hasKey p.nodes id = true := by simp [hasKey, hsn]
    have hcasc := cascade_foldl id p.edges [] p [] (by simp)
      (fun k _ => rfl) hnd
    rw [List.nil_append] at hcasc
    have hlook : (((p.edges.map Prod.fst).foldl (cascadeStep id) (p, [])).1).nodes
        = p.nodes := by rw [hcasc]
    constructor
    · simp only [removeNode, hk, if_true, hlook, hsn, Option.elim, hel,
        Bool.false_eq_true, if_false]
      rw [hcasc]
    · simp only [removeNode, hk, if_true, hlook, hsn, Option.elim, hel,
        Bool.false_eq_true, if_false]

/-- Witness for C7 (amended): removing the usable node `a` deletes it and
the one edge anchored to it while keeping node `b` and the literal-point
edge untouched; removing an elementless node `c` removes its referring edge
but leaves `c` registered and throws. -/
theorem c7_witness :
    ((removeNode
      ⟨0, [("a", ⟨⟨0, 0⟩, true, none⟩), ("b", ⟨⟨5, 5⟩, true, none⟩)],
        [("e1", ⟨EndPt.ref "a", EndPt.ref "b", []⟩),
          ("e2", ⟨EndPt.pt ⟨1, 1⟩, EndPt.pt ⟨2, 2⟩, []⟩)], none⟩ "a").st =
      ⟨0, [("b", ⟨⟨5, 5⟩, true, none⟩)],
        [("e2", ⟨EndPt.pt ⟨1, 1⟩, EndPt.pt ⟨2, 2⟩, []⟩)], none⟩ ∧
    (removeNode
      ⟨0, [("a", ⟨⟨0, 0⟩, true, none⟩), ("b", ⟨⟨5, 5⟩, true, none⟩)],
        [("e1", ⟨EndPt.ref "a", EndPt.ref "b", []⟩),
          ("e2", ⟨EndPt.pt ⟨1, 1⟩, EndPt.pt ⟨2, 2⟩, []⟩)], none⟩ "a").err =
      none) ∧
    ((removeNode ⟨0, [("c", ⟨⟨0, 0⟩, false, none⟩)],
        [("e3", ⟨EndPt.ref "c", EndPt.pt ⟨4, 4⟩, []⟩)], none⟩ "c").st =
      ⟨0, [("c", ⟨⟨0, 0⟩, false, none⟩)], [], none⟩ ∧
    (removeNode ⟨0, [("c", ⟨⟨0, 0⟩, false, none⟩)],
        [("e3", ⟨EndPt.ref "c", EndPt.pt ⟨4, 4⟩, []⟩)], none⟩ "c").err =
      some PError.invalidElem) := by
  constructor
  · have h := c7_amended.1
      ⟨0, [("a", ⟨⟨0, 0⟩, true, none⟩), ("b", ⟨⟨5, 5⟩, true, none⟩)],
        [("e1", ⟨EndPt.ref "a", EndPt.ref "b", []⟩),
          ("e2", ⟨EndPt.pt ⟨1, 1⟩, EndPt.pt ⟨2, 2⟩, []⟩)], none⟩
      "a" ⟨⟨0, 0⟩, true, none⟩ (by decide) rfl (by decide)
    refine ⟨?_, h.2⟩
    rw [h.1]
    decide
  · have h := c7_amended.2
      ⟨0, [("c", ⟨⟨0, 0⟩, false, none⟩)],
        [("e3", ⟨EndPt.ref "c", EndPt.pt ⟨4, 4⟩, []⟩)], none⟩
      "c" ⟨⟨0, 0⟩, false, none⟩ (by decide) rfl (by decide)
    refine ⟨?_, h.2⟩
    rw [h.1]
    decide

/-- Claim C8: starting from a fresh paper, for any finite sequence of
`addNode`/`removeNode` calls (whose components yield renderable elements,
so that every failed call is a clean `DuplicateId`/`NotFound` failure
changing nothing), the node registry's keys are exactly the ids
successfully added and not subsequently removed, each occurring at most
once. -/
theorem c8_registry_contents (g : Int) (ops : List NodeOp)
    (hops : ∀ op ∈ ops, match op with
      | NodeOp.add n => n.hasElement = true
      | NodeOp.remove _ => True) :
    (runNodeOps (emptyPaper g) ops).nodes.map Prod.fst =
      specAddedNotRemoved ops ∧ (specAddedNotRemoved ops).Nodup := by
  have h := runNodeOps_inv ops (emptyPaper g) [] hops
    ⟨rfl, List.nodup_nil, by simp [emptyPaper], rfl⟩
  exact ⟨h.1, h.2.1⟩

/-- Witness for C8: add `a`, add `b`, a duplicate add of `a` (fails), remove
`a`, re-add `a`: the registry holds exactly `b` then `a`. -/
theorem c8_witness :
    (runNodeOps (emptyPaper 20)
      [NodeOp.add ⟨"a", ⟨1, 1⟩, true⟩, NodeOp.add ⟨"b", ⟨2, 2⟩, true⟩,
        NodeOp.add ⟨"a", ⟨9, 9⟩, true⟩, NodeOp.remove "a",
        NodeOp.add ⟨"a", ⟨3, 3⟩, true⟩]).nodes.map Prod.fst = ["b", "a"] ∧
    (["b", "a"] : List String).Nodup :=
  c8_registry_contents 20
    [NodeOp.add ⟨"a", ⟨1, 1⟩, true⟩, NodeOp.add ⟨"b", ⟨2, 2⟩, true⟩,
      NodeOp.add ⟨"a", ⟨9, 9⟩, true⟩, NodeOp.remove "a",
      NodeOp.add ⟨"a", ⟨3, 3⟩, true⟩]
    (by intro op hop; fin_cases hop <;> trivial)

/-- Claim C9 is false on the code: `_setNodeCoords` compares the raw new
coordinates against the stored ones with exact equality and never snaps
before comparing.  Node `n` is stored at (60, 40) on a unit-20 grid; the
target (65, 47) snaps to (60, 40) — equal to the current coordinates — yet
the call fires `move-node` and stores (65, 47). -/
theorem c9_counterexample :
    roundToNearest 65 20 20 = 60 ∧ roundToNearest 47 20 20 = 40 ∧
    (setNodeCoords ⟨20, [("n", ⟨⟨60, 40⟩, true, some ⟨60, 40⟩⟩)], [], none⟩
      "n" ⟨65, 47⟩).fired = ["move-node"] ∧
    ((alLookup (setNodeCoords
        ⟨20, [("n", ⟨⟨60, 40⟩, true, some ⟨60, 40⟩⟩)], [], none⟩
        "n" ⟨65, 47⟩).st.nodes "n").map (fun sn => sn.coords)) =
      some ⟨65, 47⟩ := by
  refine ⟨by decide, by decide, by decide, by decide⟩

/-- Claim C9 (amended): assigning coordinates *exactly equal* to the node's
current stored coordinates through the coordinate setter fires no event and
changes nothing — the registries, the stored coordinates and the element's
handle position are untouched (grid snapping plays no part in the
comparison). -/
theorem c9_amended (p : PaperSt) (id : String) (c : Coord) (sn : StoredNode)
    (hsn : alLookup p.nodes id = some sn)
    (heq : areCoordsEqual sn.coords c = true) :
    setNodeCoords p id c = ⟨p, none, []⟩ := by
  simp [setNodeCoords, hsn, heq]

/-- Witness for C9 (amended): re-assigning the stored (60, 40) is a complete
no-op. -/
theorem c9_witness :
    setNodeCoords ⟨20, [("n", ⟨⟨60, 40⟩, true, some ⟨60, 40⟩⟩)], [], none⟩
      "n" ⟨60, 40⟩ =
      ⟨⟨20, [("n", ⟨⟨60, 40⟩, true, some ⟨60, 40⟩⟩)], [], none⟩, none, []⟩ :=
  c9_amended ⟨20, [("n", ⟨⟨60, 40⟩, true, some ⟨60, 40⟩⟩)], [], none⟩
    "n" ⟨60, 40⟩ ⟨⟨60, 40⟩, true, some ⟨60, 40⟩⟩ (by decide) (by decide)

/-- Claim C10: when a current active item exists, `updateActiveItem` with a
non-absent item compares only the keys present on the new item; if each of
them maps to an equal value on the current active item the call is a no-op
(no event, no state change), even when the current active item carries
additional keys absent from the new item. -/
theorem c10_active_item_keywise (p : PaperSt) (old item : List (String × String))
    (hold : p.activeItem = some old)
    (hmatch : ∀ k ∈ item.map Prod.fst, alLookup old k = alLookup item k) :
    updateActiveItem p (some item) = ⟨p, none, []⟩ := by
  have hkm : keysMatch item old = true := by
    rw [keysMatch, List.all_eq_true]
    intro k hk
    rw [hmatch k hk]
    exact beq_self_eq_true _
  simp [updateActiveItem, hold, hkm]

/-- Witness for C10: the current active item has an extra key `extra`; the
new item's two keys match it, so the call is a no-op. -/
theorem c10_witness :
    updateActiveItem
      ⟨0, [], [],
        some [("elementType", "node"), ("id", "n1"),
          ("paperItemState", "selected"), ("extra", "x")]⟩
      (some [("id", "n1"), ("elementType", "node")]) =
      ⟨⟨0, [], [],
        some [("elementType", "node"), ("id", "n1"),
          ("paperItemState", "selected"), ("extra", "x")]⟩, none, []⟩ :=
  c10_active_item_keywise
    ⟨0, [], [],
      some [("elementType", "node"), ("id", "n1"),
        ("paperItemState", "selected"), ("extra", "x")]⟩
    [("elementType", "node"), ("id", "n1"),
      ("paperItemState", "selected"), ("extra", "x")]
    [("id", "n1"), ("elementType", "node")]
    rfl (by decide)

end Workflow









